import Mathlib

/-!
Verification of the vors-ting feedback-loop core against its specification.

The development shallowly embeds the Python sources:

* `src/vors_ting/orchestration/orchestrator.py` — the round state machine
  (`_run_converge_mode`, `_initial_generation`, `_review_phase`,
  `_refine_phase`, `_check_convergence`, `_log_round`, `_log_interaction`,
  `run`) and
* `src/vors_ting/agents/base.py` — the retry controller (`_call_llm`,
  `_get_retry_after`).

Python floats are modelled as rationals (`ℚ`); the one place where IEEE
semantics matters — the unguarded cosine-similarity division producing NaN
for zero-norm embeddings — is modelled explicitly (see `simLtB`).  Agents
are modelled as records of their behaviour functions; the external LLM and
embedding model are parameters.
-/

namespace VorsTing

/-- An embedding vector (`numpy` array of floats), modelled as a list of
rationals. -/
abbrev Vec := List ℚ

/-- Dot product `np.dot(old_emb, new_emb)`. -/
def dot (u v : Vec) : ℚ := (List.zipWith (· * ·) u v).sum

/-- Squared Euclidean norm: `np.linalg.norm v ^ 2 = dot v v`. -/
def normSq (v : Vec) : ℚ := dot v v

/-- The real-valued cosine similarity
`np.dot(old_emb, new_emb) / (np.linalg.norm(old_emb) * np.linalg.norm(new_emb))`
computed in `_check_convergence` (orchestrator.py lines 355-359). -/
noncomputable def cosineSim (u v : Vec) : ℝ :=
  ((dot u v : ℚ) : ℝ) /
    (Real.sqrt ((normSq u : ℚ) : ℝ) * Real.sqrt ((normSq v : ℚ) : ℝ))

/-- Executable model of the Python float test `similarity < threshold` for
one embedding pair (orchestrator.py line 361).  When either norm is zero the
Python division yields IEEE NaN and `NaN < threshold` is `False`; that case
is the `p = 0` branch.  When both norms are nonzero the boolean is proved
equal to the real-number comparison `cosineSim u v < t`
(`simLtB_eq_true_iff` below); the case split on signs replaces the
irrational square roots by rational comparisons of squares. -/
def simLtB (u v : Vec) (t : ℚ) : Bool :=
  let d := dot u v
  let p := normSq u * normSq v
  if p = 0 then false
  else if 0 ≤ t then
    if d < 0 then true else decide (d ^ 2 < t ^ 2 * p)
  else if 0 ≤ d then false
  else decide (t ^ 2 * p < d ^ 2)

/-- Shallow embedding of `Orchestrator._check_convergence`
(orchestrator.py lines 327-365), parametrised by the external embedding
model `emb` (the `SentenceTransformer.encode` of each text) and by the
configured `similarity_threshold`.  Mirrors the source: mismatched lengths
give `false`; empty input gives `true`; otherwise the loop returns `false`
as soon as one pair has `similarity < threshold`, else `true`. -/
def check_convergence (emb : String → Vec) (threshold : ℚ)
    (old_artifacts new_artifacts : List String) : Bool :=
  if old_artifacts.length ≠ new_artifacts.length then false
  else if old_artifacts = [] then true
  else
    ((old_artifacts.map emb).zip (new_artifacts.map emb)).all
      (fun p => ! simLtB p.1 p.2 threshold)

/-! ## Orchestrator data model -/

/-- One criterion of the evaluation rubric (config.py `RubricCriterion`). -/
structure RubricCriterion where
  name : String
  weight : ℚ
  guidelines : String
deriving DecidableEq, Repr

/-- The evaluation rubric (config.py `RubricConfig`); passed through
unchanged to reviewers. -/
structure Rubric where
  criteria : List RubricCriterion
  living : Bool
  shadowPath : Option String
deriving DecidableEq, Repr

/-- A review, as produced by `ReviewerAgent.review` (reviewer.py):
`{"feedback": response, "scores": {}}`. -/
structure Review where
  feedback : String
  scores : List (String × ℚ)
deriving DecidableEq, Repr, Inhabited

/-- An agent, modelled by its identifying fields and its behaviour
functions (the external LLM calls issued by `generate`, `review` and
`refine` are folded into the functions; a deterministic model of one run's
responses). -/
structure Agent where
  name : String
  role : String
  generate : String → String
  review : String → Option Rubric → Review
  refine : String → List Review → String

/-- One audit record appended by `Orchestrator._log_interaction`
(orchestrator.py lines 372-396).  The model keeps the fields that identify
the call and determine the claims' meaning (`round`, `agent_name`,
`agent_role`); `timestamp`, `prompt`, `response` and `metadata` are opaque
payload copied verbatim into the dict and do not influence where the
record is placed, so they are omitted. -/
structure Interaction where
  round : ℕ
  agent_name : String
  agent_role : String
deriving DecidableEq, Repr

/-- One entry of `Orchestrator.round_history`, the dict built by
`_log_round` (orchestrator.py lines 367-370).  In Python the `reviews`,
`converged` and `interactions` keys are absent until first written; absent
`interactions` is modelled as `[]` (indistinguishable for every claim),
the optional keys as `Option`. -/
structure RoundData where
  round : ℕ
  artifacts : List String
  reviews : Option (List Review)
  converged : Option Bool
  interactions : List Interaction
deriving DecidableEq, Repr, Inhabited

/-- `Orchestrator._log_interaction` (orchestrator.py lines 372-396): if
`round_history` is non-empty, append the interaction to the *last* round
entry (creating its `interactions` list if needed); if the history is
empty, the interaction is silently dropped. -/
def log_interaction : List RoundData → Interaction → List RoundData
  | [], _ => []
  | [r], i => [{ r with interactions := r.interactions ++ [i] }]
  | r :: r2 :: rest, i => r :: log_interaction (r2 :: rest) i

/-- `Orchestrator._log_round` (orchestrator.py lines 367-370): append a new
round entry to the history. -/
def log_round (hist : List RoundData) (r : RoundData) : List RoundData :=
  hist ++ [r]

/-- `Orchestrator._initial_generation` (orchestrator.py lines 204-232):
every creator-role agent generates one artifact from the task; each call is
logged with `_log_interaction` at round 0.  The pair is (artifacts so far,
round history after the logging side effects). -/
def initial_generation (agents : List Agent) (task : String)
    (hist : List RoundData) : List String × List RoundData :=
  agents.foldl
    (fun acc ag =>
      if ag.role == "creator" then
        (acc.1 ++ [ag.generate task],
         log_interaction acc.2 ⟨0, ag.name, "creator"⟩)
      else acc)
    ([], hist)

/-- The inner loop of `Orchestrator._review_phase` (orchestrator.py lines
243-273): every reviewer-role agent reviews one artifact, appending to the
accumulated (reviews, history) pair and logging each call at
`current_round`. -/
def review_inner (agents : List Agent) (rubric : Option Rubric)
    (current_round : ℕ) (artifact : String)
    (acc : List Review × List RoundData) : List Review × List RoundData :=
  agents.foldl
    (fun acc2 ag =>
      if ag.role == "reviewer" then
        (acc2.1 ++ [ag.review artifact rubric],
         log_interaction acc2.2 ⟨current_round, ag.name, "reviewer"⟩)
      else acc2)
    acc

/-- `Orchestrator._review_phase` (orchestrator.py lines 234-274): for every
artifact (outer loop), every reviewer-role agent (inner loop,
`review_inner`) reviews it; reviews accumulate in a flattened
artifact-major, agent-minor list, and each call is logged at
`current_round`. -/
def review_phase (agents : List Agent) (rubric : Option Rubric)
    (current_round : ℕ) (artifacts : List String)
    (hist : List RoundData) : List Review × List RoundData :=
  artifacts.foldl
    (fun acc artifact => review_inner agents rubric current_round artifact acc)
    ([], hist)

/-- Python `range(start, stop, step)` for a positive `step`: the indices
`start, start + step, start + 2 * step, …` strictly below `stop`. -/
def rangeStep (start stop step : ℕ) : List ℕ :=
  (List.range ((stop - start + step - 1) / step)).map (fun k => start + k * step)

/-- The review-gathering of `Orchestrator._refine_phase` (orchestrator.py
lines 283-287): `[reviews[j] for j in range(i, len(reviews), len(artifacts))]`. -/
def artifact_reviews (reviews : List Review) (num_artifacts i : ℕ) :
    List Review :=
  (rangeStep i reviews.length num_artifacts).map (fun j => reviews.getD j default)

/-- `Orchestrator._refine_phase` (orchestrator.py lines 276-325): for each
artifact index `i`, gather `artifact_reviews` with stride `len(artifacts)`,
then the *first* creator-role agent refines the artifact (`break` after the
first); with no creator the index yields nothing.  Each refine call is
logged at `current_round`. -/
def refine_phase (agents : List Agent) (current_round : ℕ)
    (artifacts : List String) (reviews : List Review)
    (hist : List RoundData) : List String × List RoundData :=
  artifacts.enum.foldl
    (fun acc x =>
      match agents.find? (fun ag => ag.role == "creator") with
      | none => acc
      | some c =>
        (acc.1 ++ [c.refine x.2 (artifact_reviews reviews artifacts.length x.1)],
         log_interaction acc.2 ⟨current_round, c.name, "creator"⟩))
    ([], hist)

/-- The review list produced by `review_phase`, without the logging side
effects (proved equal to `(review_phase …).1` in
`review_phase_fst` below). -/
def reviews_pure (agents : List Agent) (rubric : Option Rubric)
    (artifacts : List String) : List Review :=
  artifacts.flatMap (fun artifact =>
    (agents.filter (fun ag => ag.role == "reviewer")).map
      (fun ag => ag.review artifact rubric))

/-- The refined artifact list produced by `refine_phase`, without the
logging side effects (proved equal to `(refine_phase …).1` in
`refine_phase_fst` below). -/
def refine_pure (agents : List Agent) (artifacts : List String)
    (reviews : List Review) : List String :=
  match agents.find? (fun ag => ag.role == "creator") with
  | none => []
  | some c =>
    artifacts.enum.map
      (fun x => c.refine x.2 (artifact_reviews reviews artifacts.length x.1))

/-- One full review+refine step on an artifact sequence. -/
def refine_step (agents : List Agent) (rubric : Option Rubric)
    (artifacts : List String) : List String :=
  refine_pure agents artifacts (reviews_pure agents rubric artifacts)

/-- The artifact sequence entering round `n + 1` (equivalently: after `n`
review+refine rounds), starting from `artifacts`. -/
def arts_iter (agents : List Agent) (rubric : Option Rubric)
    (artifacts : List String) : ℕ → List String
  | 0 => artifacts
  | n + 1 => refine_step agents rubric (arts_iter agents rubric artifacts n)

/-- The run configuration fields read by the orchestrator loop
(config.py `Config` / `ConvergenceConfig`): `task`, `mode`, `rounds` and
`convergence.similarity_threshold`, plus the optional rubric.  config.py
validates `rounds ≥ 1` (`validate_rounds`). -/
structure Config where
  task : String
  mode : String
  rounds : ℕ
  threshold : ℚ
  rubric : Option Rubric

/-- The outcome of `_run_converge_mode` together with the orchestrator's
final mutable state: returned status and artifacts, `current_round`, and
`round_history`. -/
structure RunResult where
  status : String
  artifacts : List String
  current_round : ℕ
  history : List RoundData

/-- The round loop of `Orchestrator._run_converge_mode` (orchestrator.py
lines 160-196): `for round_num in range(1, rounds + 1)`; arguments are the
next `round_num`, the remaining iteration count, the current artifacts,
the history and the last value assigned to `current_round`. -/
def converge_go (agents : List Agent) (cfg : Config) (emb : String → Vec) :
    ℕ → ℕ → List String → List RoundData → ℕ → RunResult
  | _, 0, artifacts, hist, cur => ⟨"max_rounds_reached", artifacts, cur, hist⟩
  | round_num, rem + 1, artifacts, hist, _ =>
    let rp := review_phase agents cfg.rubric round_num artifacts hist
    let fp := refine_phase agents round_num artifacts rp.1 rp.2
    if check_convergence emb cfg.threshold artifacts fp.1 then
      ⟨"converged", fp.1, round_num,
        log_round fp.2 ⟨round_num, fp.1, some rp.1, some true, []⟩⟩
    else
      converge_go agents cfg emb (round_num + 1) rem fp.1
        (log_round fp.2 ⟨round_num, fp.1, some rp.1, none, []⟩) round_num

/-- `Orchestrator._run_converge_mode` (orchestrator.py lines 146-196):
round 0 generation (history starts empty, `current_round` starts 0), then
the round loop. -/
def run_converge_mode (agents : List Agent) (cfg : Config)
    (emb : String → Vec) : RunResult :=
  let ig := initial_generation agents cfg.task []
  converge_go agents cfg emb 1 cfg.rounds ig.1
    (log_round ig.2 ⟨0, ig.1, none, none, []⟩) 0

/-- The artifacts produced by round 0 on a fresh orchestrator. -/
def initial_artifacts (agents : List Agent) (task : String) : List String :=
  (initial_generation agents task []).1

/-! ## `run` and auto-save (orchestrator.py lines 129-144) -/

/-- The failures `Orchestrator.run` can propagate. -/
inductive RunError where
  | notImplemented
  | callFailure (msg : String)
deriving DecidableEq, Repr

/-- `Orchestrator._run_diverge_mode` (orchestrator.py lines 198-202):
raises `NotImplementedError` before any round executes. -/
def run_diverge_mode : Except RunError RunResult := .error .notImplemented

/-- The body of `Orchestrator.run`'s `try` block: dispatch on `mode`. -/
def run_body (agents : List Agent) (cfg : Config) (emb : String → Vec) :
    Except RunError RunResult :=
  if cfg.mode == "converge" then .ok (run_converge_mode agents cfg emb)
  else run_diverge_mode

/-- `Orchestrator.run` (orchestrator.py lines 129-144): the `try/except/else`
around the mode body, abstracted over the body's outcome.  The first
component counts the `_auto_save()` calls performed; the second is what the
caller sees (the result, or the re-raised error). -/
def run_with_autosave (body : Except RunError RunResult) :
    ℕ × Except RunError RunResult :=
  match body with
  | .error e => (1, .error e)
  | .ok r => (1, .ok r)

/-! ## Retry controller (agents/base.py) -/

/-- The parsed rate-limit headers of a `RateLimitError`.  `retryAfter` is
the float value of a `retry-after` header (`none` when the header is
absent, empty, or fails `float(...)` parsing — in all three cases the code
falls through); `ratelimitReset` likewise for `x-ratelimit-reset`. -/
structure Headers where
  retryAfter : Option ℚ
  ratelimitReset : Option ℚ
deriving DecidableEq, Repr

/-- The sentinel `min_unix_ts = 1_000_000_000` of `_get_retry_after`. -/
def MIN_UNIX_TS : ℚ := 1000000000

/-- `BaseAgent._get_retry_after` (base.py lines 56-92): `retry-after` wins
when present; otherwise `x-ratelimit-reset` is interpreted as an absolute
Unix timestamp (wait `max(0, reset_time - now)`) when it exceeds the
sentinel, else as a relative second count; `none` when no usable header
exists (including `exception.headers` itself missing or empty). -/
def get_retry_after (now : ℚ) (headers : Option Headers) : Option ℚ :=
  match headers with
  | none => none
  | some h =>
    match h.retryAfter with
    | some ra => some ra
    | none =>
      match h.ratelimitReset with
      | some reset_time =>
        if reset_time > MIN_UNIX_TS then some (max 0 (reset_time - now))
        else some reset_time
      | none => none

/-- The outcome of one `completion(...)` call inside `_call_llm`:
success, a `RateLimitError` (carrying its optional headers), or any other
exception. -/
inductive CallResult where
  | success (text : String)
  | rateLimited (headers : Option Headers)
  | failure (msg : String)

/-- What `_call_llm` raises. -/
inductive CallError where
  | rateLimited (headers : Option Headers)
  | failure (msg : String)
  | maxRetriesExceeded
deriving DecidableEq, Repr

/-- The retry loop of `BaseAgent._call_llm` (base.py lines 105-142),
deterministically parametrised by the call outcomes per attempt
(`outcomes`), the uniform jitter draws per attempt (`jitter`, the
`random.uniform(0, 0.2)` values), and the clock (`now`).  Arguments after
the configuration are: the captured `last_exception` (`none`, or
`some h` for a seen `RateLimitError` with headers `h`), the current
`attempt` index in `range(max_retries)`, and the remaining iterations.
Returns the list of slept delays (in order) and the final outcome. -/
def call_llm_go (outcomes : ℕ → CallResult) (jitter : ℕ → ℚ) (now : ℚ)
    (max_retries : ℕ) (base_delay max_delay exp_base : ℚ) :
    Option (Option Headers) → ℕ → ℕ → List ℚ × Except CallError String
  | last_exc, _, 0 =>
    ([], .error (match last_exc with
      | some h => .rateLimited h
      | none => .maxRetriesExceeded))
  | _, attempt, rem + 1 =>
    match outcomes attempt with
    | .success s => ([], .ok s)
    | .failure m => ([], .error (.failure m))
    | .rateLimited h =>
      if max_retries - 1 ≤ attempt then ([], .error (.rateLimited h))
      else
        let delay :=
          match get_retry_after now h with
          | some ra => min ra max_delay
          | none =>
            min (base_delay * exp_base ^ attempt) max_delay * (1 + jitter attempt)
        let rest := call_llm_go outcomes jitter now max_retries base_delay
          max_delay exp_base (some h) (attempt + 1) rem
        (delay :: rest.1, rest.2)

/-- `BaseAgent._call_llm` entered with `attempt = 0`, `last_exception =
None` and `max_retries` loop iterations.  Defaults (base.py lines 16-19):
`MAX_RETRIES = 5`, `BASE_DELAY = 1.0`, `MAX_DELAY = 60.0`,
`EXPONENTIAL_BASE = 2.0`. -/
def call_llm (outcomes : ℕ → CallResult) (jitter : ℕ → ℚ) (now : ℚ)
    (max_retries : ℕ) (base_delay max_delay exp_base : ℚ) :
    List ℚ × Except CallError String :=
  call_llm_go outcomes jitter now max_retries base_delay max_delay exp_base
    none 0 max_retries

/-- The delay the controller computes at attempt `m`, read off the attempt's
outcome (only meaningful when attempt `m` is rate-limited and retried). -/
def delay_at (outcomes : ℕ → CallResult) (jitter : ℕ → ℚ) (now : ℚ)
    (base_delay max_delay exp_base : ℚ) (m : ℕ) : ℚ :=
  match outcomes m with
  | .rateLimited h =>
    match get_retry_after now h with
    | some ra => min ra max_delay
    | none => min (base_delay * exp_base ^ m) max_delay * (1 + jitter m)
  | _ => 0

/-! ## Concrete instances used in evaluation theorems and witnesses -/

/-- A reviewer agent whose review of a text records both its own name and
the reviewed text, so distinct (reviewer, artifact) pairs give distinct
reviews. -/
def demo_reviewer (nm : String) : Agent :=
  { name := nm
    role := "reviewer"
    generate := fun _ => ""
    review := fun content _ => ⟨nm ++ ":" ++ content, []⟩
    refine := fun original _ => original }

/-- A creator agent generating `"a"` and refining every artifact to `"b"`. -/
def demo_creator : Agent :=
  { name := "c1"
    role := "creator"
    generate := fun _ => "a"
    review := fun _ _ => ⟨"", []⟩
    refine := fun _ _ => "b" }

/-- A creator agent generating `"a"` and alternating `"a"` / `"b"` on each
refinement, so consecutive rounds never converge under `demo_emb`. -/
def alt_creator : Agent :=
  { name := "c1"
    role := "creator"
    generate := fun _ => "a"
    review := fun _ _ => ⟨"", []⟩
    refine := fun original _ => if original == "a" then "b" else "a" }

/-- An embedding assigning orthogonal unit vectors to `"a"` and everything
else. -/
def demo_emb : String → Vec :=
  fun s => if s == "a" then [1, 0] else [0, 1]

/-- An embedding assigning the unit vector `[1]` to every text. -/
def unit_emb : String → Vec := fun _ => [1]

/-- A one-round converge configuration. -/
def demo_cfg : Config := ⟨"T", "converge", 1, 1, none⟩

/-- A three-round converge configuration with threshold `1/2`. -/
def demo_cfg3 : Config := ⟨"T", "converge", 3, 1 / 2, none⟩

/-! ## Helper lemmas -/

lemma dot_self_eq_sum_squares (v : Vec) :
    dot v v = (v.map (fun x => x * x)).sum := by
  simp [dot, List.zipWith_same]

lemma normSq_nonneg (v : Vec) : 0 ≤ normSq v := by
  rw [normSq, dot_self_eq_sum_squares]
  apply List.sum_nonneg
  intro x hx
  rcases List.mem_map.mp hx with ⟨y, _, rfl⟩
  exact mul_self_nonneg y

lemma simLtB_eq_true_iff (u v : Vec) (t : ℚ)
    (hu : normSq u ≠ 0) (hv : normSq v ≠ 0) :
    simLtB u v t = true ↔ cosineSim u v < (t : ℝ) := by
  have hu0 : (0 : ℝ) < ((normSq u : ℚ) : ℝ) := by
    exact_mod_cast lt_of_le_of_ne (normSq_nonneg u) (Ne.symm hu)
  have hv0 : (0 : ℝ) < ((normSq v : ℚ) : ℝ) := by
    exact_mod_cast lt_of_le_of_ne (normSq_nonneg v) (Ne.symm hv)
  set s : ℝ := Real.sqrt ((normSq u : ℚ) : ℝ) * Real.sqrt ((normSq v : ℚ) : ℝ)
    with hs_def
  have hs : 0 < s :=
    mul_pos (Real.sqrt_pos.mpr hu0) (Real.sqrt_pos.mpr hv0)
  have hssq : s ^ 2 = ((normSq u : ℚ) : ℝ) * ((normSq v : ℚ) : ℝ) := by
    rw [hs_def, mul_pow, Real.sq_sqrt hu0.le, Real.sq_sqrt hv0.le]
  have hp : normSq u * normSq v ≠ 0 := mul_ne_zero hu hv
  have hcs : cosineSim u v < (t : ℝ) ↔ ((dot u v : ℚ) : ℝ) < (t : ℝ) * s := by
    rw [cosineSim, ← hs_def, div_lt_iff₀ hs]
  rw [hcs]
  set d : ℝ := ((dot u v : ℚ) : ℝ) with hd_def
  have hkey : ∀ a b : ℝ, 0 ≤ a → 0 ≤ b → (a < b ↔ a ^ 2 < b ^ 2) := by
    intro a b ha hb
    constructor
    · intro h
      have := mul_self_lt_mul_self ha h
      simpa [pow_two] using this
    · intro h
      by_contra hab
      push_neg at hab
      have := mul_self_le_mul_self hb hab
      simp only [pow_two] at h
      exact absurd h (not_lt.mpr this)
  by_cases ht : 0 ≤ t
  · by_cases hdneg : dot u v < 0
    · have hts : 0 ≤ (t : ℝ) * s := mul_nonneg (by exact_mod_cast ht) hs.le
      have hd' : d < 0 := by rw [hd_def]; exact_mod_cast hdneg
      exact iff_of_true (by simp [simLtB, hp, ht, hdneg])
        (lt_of_lt_of_le hd' hts)
    · push_neg at hdneg
      have hd' : 0 ≤ d := by rw [hd_def]; exact_mod_cast hdneg
      have hts : 0 ≤ (t : ℝ) * s := mul_nonneg (by exact_mod_cast ht) hs.le
      have hiff := hkey d ((t : ℝ) * s) hd' hts
      simp only [simLtB, if_neg hp, if_pos ht, if_neg (not_lt.mpr hdneg),
        decide_eq_true_eq]
      rw [hiff, mul_pow, hssq, hd_def]
      exact_mod_cast Iff.rfl
  · push_neg at ht
    have hts : (t : ℝ) * s < 0 :=
      mul_neg_of_neg_of_pos (by exact_mod_cast ht) hs
    by_cases hdneg : 0 ≤ dot u v
    · have hd' : 0 ≤ d := by rw [hd_def]; exact_mod_cast hdneg
      exact iff_of_false
        (by simp [simLtB, hp, not_le.mpr ht, hdneg])
        (not_lt.mpr (le_trans hts.le hd'))
    · push_neg at hdneg
      have hd' : d < 0 := by rw [hd_def]; exact_mod_cast hdneg
      have hiff := hkey (-((t : ℝ) * s)) (-d) (by linarith) (by linarith)
      simp only [simLtB, if_neg hp, if_neg (not_le.mpr ht),
        if_neg (not_le.mpr hdneg), decide_eq_true_eq]
      have hneg : d < (t : ℝ) * s ↔ -((t : ℝ) * s) < -d := by
        constructor <;> intro h <;> linarith
      rw [hneg, hiff, neg_sq, neg_sq, mul_pow, hssq, hd_def]
      exact_mod_cast Iff.rfl

lemma simLtB_self_false (v : Vec) (t : ℚ) (ht : t ≤ 1) :
    simLtB v v t = false := by
  by_cases hp : normSq v * normSq v = 0
  · simp [simLtB, hp]
  · have hnz : normSq v ≠ 0 := fun h0 => hp (by rw [h0]; ring)
    have hpos : 0 < normSq v := lt_of_le_of_ne (normSq_nonneg v) (Ne.symm hnz)
    have hd : dot v v = normSq v := rfl
    by_cases ht0 : 0 ≤ t
    · have h1 : ¬ dot v v < 0 := not_lt.mpr (by rw [hd]; exact hpos.le)
      have h2 : ¬ dot v v ^ 2 < t ^ 2 * (normSq v * normSq v) := by
        rw [hd]
        have ht2 : t ^ 2 ≤ 1 := by nlinarith
        intro hlt
        nlinarith [sq_nonneg (normSq v)]
      simp [simLtB, hp, ht0, h1, h2]
    · have h3 : 0 ≤ dot v v := by rw [hd]; exact hpos.le
      simp [simLtB, hp, ht0, h3]

lemma zip_self_all_not (t : ℚ) (ht : t ≤ 1) :
    ∀ l : List Vec, (l.zip l).all (fun p => ! simLtB p.1 p.2 t) = true := by
  intro l
  induction l with
  | nil => rfl
  | cons v rest ih =>
    simp only [List.zip_cons_cons, List.all_cons, ih, Bool.and_true]
    simp [simLtB_self_false v t ht]

/-! ## Claim theorems -/

/-- **C8.** For every non-empty sequence of texts `X` and every threshold
`t ≤ 1`, `converged(X, X, t)` is true: comparing a round's artifacts
against identical artifacts always reports convergence (self-similarity is
1, and a zero-norm self-pair compares as NaN, which also does not block). -/
theorem converged_self (emb : String → Vec) (t : ℚ) (X : List String)
    (hX : X ≠ []) (ht : t ≤ 1) :
    check_convergence emb t X X = true := by
  unfold check_convergence
  rw [if_neg (by simp), if_neg hX]
  exact zip_self_all_not t ht (X.map emb)

/-- Witness for `converged_self` at a concrete input. -/
theorem converged_self_witness :
    check_convergence demo_emb 1 ["a"] ["a"] = true :=
  converged_self demo_emb 1 ["a"] (by decide) (by decide)

/-- **C10.** The cosine-similarity division is unguarded: for a zero-norm
pair the Python float similarity is NaN and `NaN < threshold` is false, so
a zero-norm pair never blocks convergence (first conjunct: the modelled
comparison is `false` whenever a norm is zero, for every threshold), and
the check can return `true` even though a pair's similarity is undefined
(second conjunct: both `"a"` and `"b"` embed to the zero vector, the
threshold is 1, yet the check reports convergence). -/
theorem zero_norm_never_blocks :
    (∀ (u v : Vec) (t : ℚ), normSq u = 0 ∨ normSq v = 0 →
      simLtB u v t = false) ∧
    check_convergence (fun _ => [0]) 1 ["a"] ["b"] = true := by
  constructor
  · intro u v t h0
    have hp : normSq u * normSq v = 0 := by
      rcases h0 with h | h <;> rw [h] <;> ring
    simp [simLtB, hp]
  · norm_num [check_convergence, simLtB, normSq, dot]

/-- Witness for `zero_norm_never_blocks` at a concrete zero-norm pair. -/
theorem zero_norm_never_blocks_witness :
    (normSq [0] = 0 ∨ normSq [1] = 0) ∧ simLtB [0] [1] 5 = false :=
  ⟨Or.inl (by norm_num [normSq, dot]),
    zero_norm_never_blocks.1 [0] [1] 5 (Or.inl (by norm_num [normSq, dot]))⟩

/-- **C6.** Persistence happens exactly once per run: `run` performs one
`_auto_save()` on the success path and one on the failure path before
re-raising the propagated error (first conjunct, for every outcome of the
mode body, which covers fatal call failures); in particular a
non-"converge" mode yields one save and the propagated
not-implemented error (second conjunct). -/
theorem run_autosave_once :
    (∀ body : Except RunError RunResult,
      (run_with_autosave body).1 = 1 ∧ (run_with_autosave body).2 = body) ∧
    ∀ (agents : List Agent) (cfg : Config) (emb : String → Vec),
      cfg.mode ≠ "converge" →
      run_with_autosave (run_body agents cfg emb) =
        (1, Except.error RunError.notImplemented) := by
  constructor
  · intro body
    cases body <;> exact ⟨rfl, rfl⟩
  · intro agents cfg emb hm
    have hb : (cfg.mode == "converge") = false := beq_eq_false_iff_ne.mpr hm
    simp [run_body, hb, run_diverge_mode, run_with_autosave]

/-- Witness for `run_autosave_once` on a concrete diverge-mode run. -/
theorem run_autosave_once_witness :
    run_with_autosave (run_body [] ⟨"T", "diverge", 1, 1, none⟩ demo_emb) =
      (1, Except.error RunError.notImplemented) :=
  run_autosave_once.2 [] ⟨"T", "diverge", 1, 1, none⟩ demo_emb (by decide)

/-- **C1** is refuted by the code: with 2 artifacts and 2 reviewers the
review phase produces the artifact-major list
`[r1:a, r2:a, r1:b, r2:b]`, but the refine phase's strided gather
`reviews[i], reviews[i+2], …` hands artifact 0 the reviews
`[r1:a, r1:b]` — reviewer r1's reviews of *both* artifacts — instead of
the two reviews `[r1:a, r2:a]` produced for artifact 0.  (The stride would
be correct for agent-major ordering; the code's own comment "Get relevant
reviews for this artifact" shows the intent.) -/
theorem review_gather_mismatch :
    (review_phase [demo_reviewer "r1", demo_reviewer "r2"] none 1
        ["a", "b"] []).1
      = [⟨"r1:a", []⟩, ⟨"r2:a", []⟩, ⟨"r1:b", []⟩, ⟨"r2:b", []⟩] ∧
    artifact_reviews
        [⟨"r1:a", []⟩, ⟨"r2:a", []⟩, ⟨"r1:b", []⟩, ⟨"r2:b", []⟩] 2 0
      = [⟨"r1:a", []⟩, ⟨"r1:b", []⟩] ∧
    [(⟨"r1:a", []⟩ : Review), ⟨"r1:b", []⟩] ≠ [⟨"r1:a", []⟩, ⟨"r2:a", []⟩] :=
  ⟨rfl, rfl, by decide⟩

/-- **C2** is refuted by the code: in a one-creator, one-reviewer,
one-round converge run, round 0's generation interaction is dropped (the
history is still empty when `_log_interaction` runs), and round 1's review
and refine interactions (each tagged `round = 1`) land in the round-0
record because `_log_round(1, …)` has not appended the round-1 record yet.
The final history maps to `[(0, [1, 1]), (1, [])]` (record round number
paired with the round tags of its interactions), no record anywhere holds
an interaction tagged round 0, yet round 0 did generate an artifact. -/
theorem interaction_misplacement :
    ((run_converge_mode [demo_creator, demo_reviewer "r1"] demo_cfg
        demo_emb).history.map
      (fun r => (r.round, r.interactions.map Interaction.round)))
      = [(0, [1, 1]), (1, [])] ∧
    ((run_converge_mode [demo_creator, demo_reviewer "r1"] demo_cfg
        demo_emb).history.flatMap (fun r => r.interactions)).filter
      (fun i => i.round == 0) = [] ∧
    initial_artifacts [demo_creator, demo_reviewer "r1"] "T" = ["a"] := by
  have hba : (("b" : String) = "a") = False := by simp
  have hcheck : check_convergence demo_emb 1 ["a"] ["b"] = false := by
    norm_num [check_convergence, simLtB, normSq, dot, demo_emb, hba]
  refine ⟨?_, ?_, rfl⟩ <;>
    simp [run_converge_mode, converge_go, initial_generation, review_phase,
      review_inner, refine_phase, hcheck, log_interaction, log_round,
      artifact_reviews, rangeStep, demo_creator, demo_reviewer, demo_cfg,
      demo_emb, initial_artifacts, List.enum, List.enumFrom]

lemma call_llm_go_sleep (outcomes : ℕ → CallResult) (jitter : ℕ → ℚ)
    (now : ℚ) (max_retries : ℕ) (base_delay max_delay exp_base : ℚ) :
    ∀ (n : ℕ) (last_exc : Option (Option Headers)) (attempt rem : ℕ),
    (∀ k, k ≤ n → ∃ h, outcomes (attempt + k) = CallResult.rateLimited h) →
    attempt + n + 1 < max_retries →
    n < rem →
    (call_llm_go outcomes jitter now max_retries base_delay max_delay
        exp_base last_exc attempt rem).1[n]?
      = some (delay_at outcomes jitter now base_delay max_delay exp_base
          (attempt + n)) := by
  intro n
  induction n with
  | zero =>
    intro last_exc attempt rem hrl hbound hrem
    obtain ⟨rem, rfl⟩ : ∃ r, rem = r + 1 := ⟨rem - 1, by omega⟩
    obtain ⟨h, hh⟩ := hrl 0 (le_refl 0)
    rw [Nat.add_zero] at hh ⊢
    simp only [call_llm_go, hh]
    rw [if_neg (by omega)]
    simp [delay_at, hh]
  | succ n ih =>
    intro last_exc attempt rem hrl hbound hrem
    obtain ⟨rem, rfl⟩ : ∃ r, rem = r + 1 := ⟨rem - 1, by omega⟩
    obtain ⟨h, hh⟩ := hrl 0 (Nat.zero_le _)
    rw [Nat.add_zero] at hh
    simp only [call_llm_go, hh]
    rw [if_neg (by omega)]
    simp only [List.getElem?_cons_succ]
    have hres := ih (some h) (attempt + 1) rem
      (fun k hk => by
        have hx := hrl (k + 1) (by omega)
        rwa [show attempt + (k + 1) = attempt + 1 + k by omega] at hx)
      (by omega) (by omega)
    rwa [show attempt + 1 + n = attempt + (n + 1) by omega] at hres

/-- **C4.** For every retry sequence whose rate-limited failures carry no
provider wait hint, the delay before the `n`-th sleep (0-indexed; the
sleep at attempt `n` happens when attempts `0..n` were all rate-limited
and a retry remains) equals `min(base_delay * exponential_base ^ n,
max_delay)` before jitter, and the slept delay after jitter lies in
`[d, 1.2 * d]` for that pre-jitter value `d` (the jitter draw is
`random.uniform(0, 0.2)`, hence assumed in `[0, 1/5]`). -/
theorem retry_backoff_delay (outcomes : ℕ → CallResult) (jitter : ℕ → ℚ)
    (now : ℚ) (max_retries : ℕ) (base_delay max_delay exp_base : ℚ) (n : ℕ)
    (hrl : ∀ k, k ≤ n → ∃ h, outcomes k = CallResult.rateLimited h ∧
      get_retry_after now h = none)
    (hn : n + 1 < max_retries)
    (hb : 0 ≤ base_delay) (hm : 0 ≤ max_delay) (he : 0 ≤ exp_base)
    (hj0 : 0 ≤ jitter n) (hj1 : jitter n ≤ 1 / 5) :
    (call_llm outcomes jitter now max_retries base_delay max_delay
        exp_base).1[n]?
      = some (min (base_delay * exp_base ^ n) max_delay * (1 + jitter n)) ∧
    min (base_delay * exp_base ^ n) max_delay ≤
      min (base_delay * exp_base ^ n) max_delay * (1 + jitter n) ∧
    min (base_delay * exp_base ^ n) max_delay * (1 + jitter n) ≤
      6 / 5 * min (base_delay * exp_base ^ n) max_delay := by
  have hget := call_llm_go_sleep outcomes jitter now max_retries base_delay
    max_delay exp_base n none 0 max_retries
    (fun k hk => by
      rw [Nat.zero_add]
      exact ⟨(hrl k hk).choose, (hrl k hk).choose_spec.1⟩)
    (by omega) (by omega)
  obtain ⟨h, hh, hnone⟩ := hrl n (le_refl n)
  rw [Nat.zero_add] at hget
  simp only [delay_at, hh, hnone] at hget
  have hd0 : 0 ≤ min (base_delay * exp_base ^ n) max_delay :=
    le_min (mul_nonneg hb (pow_nonneg he n)) hm
  refine ⟨by exact_mod_cast hget, ?_, ?_⟩
  · nlinarith [mul_nonneg hd0 hj0]
  · nlinarith [mul_nonneg hd0 (sub_nonneg.mpr hj1)]

/-- Witness for `retry_backoff_delay`: five hint-less rate limits with
defaults, second sleep (`n = 1`), jitter draw `1/10`. -/
theorem retry_backoff_delay_witness :
    (call_llm (fun _ => CallResult.rateLimited none) (fun _ => 1 / 10) 0 5 1
        60 2).1[1]?
      = some (min ((1 : ℚ) * 2 ^ 1) 60 * (1 + 1 / 10)) ∧
    min ((1 : ℚ) * 2 ^ 1) 60 ≤ min ((1 : ℚ) * 2 ^ 1) 60 * (1 + 1 / 10) ∧
    min ((1 : ℚ) * 2 ^ 1) 60 * (1 + 1 / 10) ≤
      6 / 5 * min ((1 : ℚ) * 2 ^ 1) 60 :=
  retry_backoff_delay _ _ 0 5 1 60 2 1
    (fun _ _ => ⟨none, rfl, rfl⟩) (by omega) (by norm_num) (by norm_num)
    (by norm_num) (by norm_num) (by norm_num)

/-- **C5.** For every rate-limited failure carrying a wait hint, the retry
delay equals `min(hint, max_delay)` with no jitter, regardless of the
attempt index (first conjunct, for an arbitrary attempt `n`); and a
reset-timestamp hint is `max(0, reset_time - now)` when the header value
exceeds the sentinel `MIN_UNIX_TS = 1_000_000_000`, else the header value
itself as relative seconds (second conjunct). -/
theorem retry_hint_delay (outcomes : ℕ → CallResult) (jitter : ℕ → ℚ)
    (now : ℚ) (max_retries : ℕ) (base_delay max_delay exp_base : ℚ) (n : ℕ)
    (h : Option Headers) (hint : ℚ)
    (hpre : ∀ k, k < n → ∃ hh, outcomes k = CallResult.rateLimited hh)
    (hn : outcomes n = CallResult.rateLimited h)
    (hhint : get_retry_after now h = some hint)
    (hlt : n + 1 < max_retries) :
    (call_llm outcomes jitter now max_retries base_delay max_delay
        exp_base).1[n]? = some (min hint max_delay) ∧
    ∀ (now2 rt : ℚ),
      get_retry_after now2 (some ⟨none, some rt⟩)
        = some (if rt > MIN_UNIX_TS then max 0 (rt - now2) else rt) := by
  constructor
  · have hget := call_llm_go_sleep outcomes jitter now max_retries base_delay
      max_delay exp_base n none 0 max_retries
      (fun k hk => by
        rw [Nat.zero_add]
        rcases Nat.lt_or_ge k n with hk2 | hk2
        · exact hpre k hk2
        · have hkn : k = n := by omega
          exact ⟨h, by rw [hkn]; exact hn⟩)
      (by omega) (by omega)
    rw [Nat.zero_add] at hget
    simpa [delay_at, hn, hhint] using hget
  · intro now2 rt
    simp only [get_retry_after]
    split <;> rfl

/-- Witness for `retry_hint_delay`: a `retry-after: 100` hint on the first
attempt with `max_delay = 60` gives a clamped 60-second sleep. -/
theorem retry_hint_delay_witness :
    (call_llm (fun _ => CallResult.rateLimited (some ⟨some 100, none⟩))
        (fun _ => 0) 0 5 1 60 2).1[0]? = some (min (100 : ℚ) 60) ∧
    ∀ (now2 rt : ℚ), get_retry_after now2 (some ⟨none, some rt⟩)
        = some (if rt > MIN_UNIX_TS then max 0 (rt - now2) else rt) :=
  retry_hint_delay _ _ 0 5 1 60 2 0 (some ⟨some 100, none⟩) 100
    (fun k hk => absurd hk (Nat.not_lt_zero k)) rfl rfl (by omega)

/-- **C3.** The convergence check returns false whenever the two sequences
have different lengths; returns true when both are empty; and otherwise
(on the defined-similarity domain, i.e. when every embedded vector has
nonzero norm, so the cosine-similarity ratio the claim states denotes a
real number) returns true if and only if every index-aligned pair has
cosine similarity ≥ threshold.  The zero-norm (NaN) case is settled
separately by `zero_norm_never_blocks`. -/
theorem check_convergence_spec (emb : String → Vec) (t : ℚ)
    (previous current : List String)
    (hnz : ∀ s ∈ previous ++ current, normSq (emb s) ≠ 0) :
    (previous.length ≠ current.length →
      check_convergence emb t previous current = false) ∧
    (previous = [] → current = [] →
      check_convergence emb t previous current = true) ∧
    (previous.length = current.length →
      (check_convergence emb t previous current = true ↔
        ∀ (i : ℕ) (h1 : i < previous.length) (h2 : i < current.length),
          (t : ℝ) ≤ cosineSim (emb (previous.get ⟨i, h1⟩))
            (emb (current.get ⟨i, h2⟩)))) := by
  refine ⟨?_, ?_, ?_⟩
  · intro hne
    unfold check_convergence
    rw [if_pos hne]
  · rintro rfl rfl
    simp [check_convergence]
  · intro hlen
    by_cases hemp : previous = []
    · subst hemp
      have hc : current = [] := List.length_eq_zero.mp (by simpa using hlen.symm)
      subst hc
      refine iff_of_true (by simp [check_convergence]) ?_
      intro i h1 _
      exact absurd h1 (by simp)
    · unfold check_convergence
      rw [if_neg (fun hne => hne hlen), if_neg hemp, List.all_eq_true]
      constructor
      · intro hall i h1 h2
        simp only [List.get_eq_getElem]
        have hz : i < ((previous.map emb).zip (current.map emb)).length := by
          rw [List.length_zip]
          simp only [List.length_map]
          omega
        have hthis := hall _ (List.getElem_mem hz)
        rw [List.getElem_zip] at hthis
        simp only [List.getElem_map, Bool.not_eq_eq_eq_not, Bool.not_true] at hthis
        have hbr := simLtB_eq_true_iff (emb previous[i]) (emb current[i]) t
          (hnz _ (List.mem_append_left _ (List.getElem_mem h1)))
          (hnz _ (List.mem_append_right _ (List.getElem_mem h2)))
        by_contra hlt
        push_neg at hlt
        have hcon := hbr.mpr hlt
        rw [hthis] at hcon
        exact Bool.false_ne_true hcon
      · intro hforall p hp
        obtain ⟨i, hi, rfl⟩ := List.mem_iff_getElem.mp hp
        have h1 : i < previous.length := by
          rw [List.length_zip] at hi
          simp only [List.length_map] at hi
          omega
        have h2 : i < current.length := by omega
        rw [List.getElem_zip]
        simp only [List.getElem_map]
        have hge := hforall i h1 h2
        simp only [List.get_eq_getElem] at hge
        have hbr := simLtB_eq_true_iff (emb previous[i]) (emb current[i]) t
          (hnz _ (List.mem_append_left _ (List.getElem_mem h1)))
          (hnz _ (List.mem_append_right _ (List.getElem_mem h2)))
        cases hb : simLtB (emb previous[i]) (emb current[i]) t with
        | false => simp [hb]
        | true => exact absurd (hbr.mp hb) (not_lt.mpr hge)

/-- Witness for `check_convergence_spec` on singleton inputs with the unit
embedding. -/
theorem check_convergence_spec_witness :
    (∀ s ∈ (["x"] : List String) ++ ["y"], normSq (unit_emb s) ≠ 0) ∧
    (((["x"] : List String).length ≠ (["y"] : List String).length →
      check_convergence unit_emb 1 ["x"] ["y"] = false) ∧
    ((["x"] : List String) = [] → (["y"] : List String) = [] →
      check_convergence unit_emb 1 ["x"] ["y"] = true) ∧
    ((["x"] : List String).length = (["y"] : List String).length →
      (check_convergence unit_emb 1 ["x"] ["y"] = true ↔
        ∀ (i : ℕ) (h1 : i < (["x"] : List String).length)
          (h2 : i < (["y"] : List String).length),
          ((1 : ℚ) : ℝ) ≤ cosineSim
            (unit_emb ((["x"] : List String).get ⟨i, h1⟩))
            (unit_emb ((["y"] : List String).get ⟨i, h2⟩))))) := by
  have hnz : ∀ s ∈ (["x"] : List String) ++ ["y"], normSq (unit_emb s) ≠ 0 := by
    intro s _
    norm_num [unit_emb, normSq, dot]
  exact ⟨hnz, check_convergence_spec unit_emb 1 ["x"] ["y"] hnz⟩

lemma initial_generation_no_creator (agents : List Agent) (task : String)
    (hno : ∀ ag ∈ agents, ag.role ≠ "creator") (hist : List RoundData) :
    initial_generation agents task hist = ([], hist) := by
  unfold initial_generation
  have key : ∀ (l : List Agent), (∀ ag ∈ l, ag.role ≠ "creator") →
      ∀ acc : List String × List RoundData,
      l.foldl
        (fun acc ag =>
          if ag.role == "creator" then
            (acc.1 ++ [ag.generate task],
             log_interaction acc.2 ⟨0, ag.name, "creator"⟩)
          else acc)
        acc = acc := by
    intro l
    induction l with
    | nil => intro _ acc; rfl
    | cons ag rest ih =>
      intro hno2 acc
      rw [List.foldl_cons]
      have hne : (ag.role == "creator") = false :=
        beq_eq_false_iff_ne.mpr (hno2 ag (List.mem_cons_self _ _))
      simp only [hne, Bool.false_eq_true, if_false]
      exact ih (fun a ha => hno2 a (List.mem_cons_of_mem _ ha)) acc
  exact key agents hno ([], hist)

/-- **C9.** A converge-mode run with no creator-role agent: round 0
produces an empty artifact sequence, the convergence check on two empty
sequences is true (the round-1 review and refine phases over no artifacts
produce nothing, so that is the first check performed), and the run
terminates after round 1 with status `"converged"` and an empty artifact
list — the degenerate configuration is reported as converged, not as an
error. -/
theorem no_creator_converges (agents : List Agent) (cfg : Config)
    (emb : String → Vec)
    (hno : ∀ ag ∈ agents, ag.role ≠ "creator")
    (hR : 1 ≤ cfg.rounds) :
    initial_artifacts agents cfg.task = [] ∧
    check_convergence emb cfg.threshold [] [] = true ∧
    (run_converge_mode agents cfg emb).status = "converged" ∧
    (run_converge_mode agents cfg emb).artifacts = [] ∧
    (run_converge_mode agents cfg emb).current_round = 1 := by
  have hig := initial_generation_no_creator agents cfg.task hno []
  have hinit : initial_artifacts agents cfg.task = [] := by
    rw [initial_artifacts, hig]
  have hchk : check_convergence emb cfg.threshold [] [] = true := by
    simp [check_convergence]
  obtain ⟨rem, hrem⟩ : ∃ r, cfg.rounds = r + 1 := ⟨cfg.rounds - 1, by omega⟩
  have hgo : run_converge_mode agents cfg emb
      = converge_go agents cfg emb 1 cfg.rounds []
          (log_round [] ⟨0, [], none, none, []⟩) 0 := by
    simp only [run_converge_mode, hig]
  rw [hinit, hgo, hrem]
  simp only [converge_go]
  simp [review_phase, refine_phase, check_convergence, log_round]

/-- Witness for `no_creator_converges`: a single reviewer, one configured
round. -/
theorem no_creator_converges_witness :
    ((∀ ag ∈ [demo_reviewer "r1"], ag.role ≠ "creator") ∧
      1 ≤ demo_cfg.rounds) ∧
    (initial_artifacts [demo_reviewer "r1"] demo_cfg.task = [] ∧
     check_convergence demo_emb demo_cfg.threshold [] [] = true ∧
     (run_converge_mode [demo_reviewer "r1"] demo_cfg demo_emb).status
        = "converged" ∧
     (run_converge_mode [demo_reviewer "r1"] demo_cfg demo_emb).artifacts
        = [] ∧
     (run_converge_mode [demo_reviewer "r1"] demo_cfg demo_emb).current_round
        = 1) := by
  have hno : ∀ ag ∈ [demo_reviewer "r1"], ag.role ≠ "creator" := by
    intro ag hag
    rw [List.mem_singleton] at hag
    subst hag
    simp [demo_reviewer]
  have hR : 1 ≤ demo_cfg.rounds := by norm_num [demo_cfg]
  exact ⟨⟨hno, hR⟩,
    no_creator_converges [demo_reviewer "r1"] demo_cfg demo_emb hno hR⟩

lemma log_interaction_round_map (hist : List RoundData) (i : Interaction) :
    (log_interaction hist i).map RoundData.round = hist.map RoundData.round := by
  induction hist with
  | nil => rfl
  | cons r rest ih =>
    cases rest with
    | nil => rfl
    | cons r2 rest2 =>
      simp only [log_interaction, List.map_cons]
      rw [ih]
      simp

lemma foldl_keep_acc {α β : Type} (l : List α) (acc : β) :
    l.foldl (fun a _ => a) acc = acc := by
  induction l generalizing acc with
  | nil => rfl
  | cons x rest ih => rw [List.foldl_cons]; exact ih acc

lemma review_inner_fst (agents : List Agent) (rubric : Option Rubric)
    (rnd : ℕ) (artifact : String) :
    ∀ acc : List Review × List RoundData,
      (review_inner agents rubric rnd artifact acc).1
        = acc.1 ++ (agents.filter (fun ag => ag.role == "reviewer")).map
            (fun ag => ag.review artifact rubric) := by
  unfold review_inner
  induction agents with
  | nil => intro acc; simp
  | cons ag rest ih =>
    intro acc
    rw [List.foldl_cons, List.filter_cons]
    cases hb : ag.role == "reviewer" with
    | false =>
      simp only [hb, Bool.false_eq_true, if_false]
      exact ih acc
    | true =>
      simp only [hb, eq_self_iff_true, if_true, List.map_cons]
      rw [ih]
      simp [List.append_assoc]

lemma review_inner_snd (agents : List Agent) (rubric : Option Rubric)
    (rnd : ℕ) (artifact : String) :
    ∀ acc : List Review × List RoundData,
      ((review_inner agents rubric rnd artifact acc).2).map RoundData.round
        = acc.2.map RoundData.round := by
  unfold review_inner
  induction agents with
  | nil => intro acc; rfl
  | cons ag rest ih =>
    intro acc
    rw [List.foldl_cons]
    cases hb : ag.role == "reviewer" with
    | false =>
      simp only [hb, Bool.false_eq_true, if_false]
      exact ih acc
    | true =>
      simp only [hb, eq_self_iff_true, if_true]
      rw [ih]
      exact log_interaction_round_map _ _

lemma review_fold_fst (agents : List Agent) (rubric : Option Rubric)
    (rnd : ℕ) :
    ∀ (artifacts : List String) (acc : List Review × List RoundData),
      (artifacts.foldl
        (fun acc artifact => review_inner agents rubric rnd artifact acc)
        acc).1
        = acc.1 ++ reviews_pure agents rubric artifacts := by
  intro artifacts
  induction artifacts with
  | nil => intro acc; simp [reviews_pure]
  | cons a rest ih =>
    intro acc
    rw [List.foldl_cons, ih, review_inner_fst]
    simp [reviews_pure, List.append_assoc]

lemma review_fold_snd (agents : List Agent) (rubric : Option Rubric)
    (rnd : ℕ) :
    ∀ (artifacts : List String) (acc : List Review × List RoundData),
      ((artifacts.foldl
        (fun acc artifact => review_inner agents rubric rnd artifact acc)
        acc).2).map RoundData.round
        = acc.2.map RoundData.round := by
  intro artifacts
  induction artifacts with
  | nil => intro acc; rfl
  | cons a rest ih =>
    intro acc
    rw [List.foldl_cons, ih, review_inner_snd]

lemma review_phase_fst (agents : List Agent) (rubric : Option Rubric)
    (rnd : ℕ) (artifacts : List String) (hist : List RoundData) :
    (review_phase agents rubric rnd artifacts hist).1
      = reviews_pure agents rubric artifacts := by
  unfold review_phase
  rw [review_fold_fst]
  simp

lemma review_phase_snd (agents : List Agent) (rubric : Option Rubric)
    (rnd : ℕ) (artifacts : List String) (hist : List RoundData) :
    ((review_phase agents rubric rnd artifacts hist).2).map RoundData.round
      = hist.map RoundData.round := by
  unfold review_phase
  rw [review_fold_snd]

lemma refine_fold_fst (c : Agent) (rnd : ℕ) (reviews : List Review) (n : ℕ) :
    ∀ (l : List (ℕ × String)) (acc : List String × List RoundData),
      (l.foldl
        (fun acc x =>
          (acc.1 ++ [c.refine x.2 (artifact_reviews reviews n x.1)],
           log_interaction acc.2 ⟨rnd, c.name, "creator"⟩))
        acc).1
        = acc.1 ++ l.map (fun x => c.refine x.2 (artifact_reviews reviews n x.1)) := by
  intro l
  induction l with
  | nil => intro acc; simp
  | cons x rest ih =>
    intro acc
    rw [List.foldl_cons, ih]
    simp [List.append_assoc]

lemma refine_fold_snd (c : Agent) (rnd : ℕ) (reviews : List Review) (n : ℕ) :
    ∀ (l : List (ℕ × String)) (acc : List String × List RoundData),
      ((l.foldl
        (fun acc x =>
          (acc.1 ++ [c.refine x.2 (artifact_reviews reviews n x.1)],
           log_interaction acc.2 ⟨rnd, c.name, "creator"⟩))
        acc).2).map RoundData.round
        = acc.2.map RoundData.round := by
  intro l
  induction l with
  | nil => intro acc; rfl
  | cons x rest ih =>
    intro acc
    rw [List.foldl_cons, ih]
    simp [log_interaction_round_map]

lemma refine_phase_fst (agents : List Agent) (rnd : ℕ)
    (artifacts : List String) (reviews : List Review)
    (hist : List RoundData) :
    (refine_phase agents rnd artifacts reviews hist).1
      = refine_pure agents artifacts reviews := by
  unfold refine_phase refine_pure
  cases hf : agents.find? (fun ag => ag.role == "creator") with
  | none =>
    simp only [hf]
    rw [foldl_keep_acc]
  | some c =>
    simp only [hf]
    rw [refine_fold_fst]
    simp

lemma refine_phase_snd (agents : List Agent) (rnd : ℕ)
    (artifacts : List String) (reviews : List Review)
    (hist : List RoundData) :
    ((refine_phase agents rnd artifacts reviews hist).2).map RoundData.round
      = hist.map RoundData.round := by
  unfold refine_phase
  cases hf : agents.find? (fun ag => ag.role == "creator") with
  | none =>
    simp only [hf]
    rw [foldl_keep_acc]
  | some c =>
    simp only [hf]
    rw [refine_fold_snd]

lemma arts_iter_shift (agents : List Agent) (rubric : Option Rubric)
    (a : List String) (k : ℕ) :
    arts_iter agents rubric (refine_step agents rubric a) k
      = arts_iter agents rubric a (k + 1) := by
  induction k with
  | zero => rfl
  | succ k ih => simp only [arts_iter, ih]

lemma initial_generation_snd_nil (agents : List Agent) (task : String) :
    (initial_generation agents task []).2 = [] := by
  unfold initial_generation
  have key : ∀ (l : List Agent) (acc : List String × List RoundData),
      acc.2 = [] →
      (l.foldl
        (fun acc ag =>
          if ag.role == "creator" then
            (acc.1 ++ [ag.generate task],
             log_interaction acc.2 ⟨0, ag.name, "creator"⟩)
          else acc)
        acc).2 = [] := by
    intro l
    induction l with
    | nil => intro acc h; exact h
    | cons ag rest ih =>
      intro acc h
      rw [List.foldl_cons]
      cases hb : ag.role == "creator" with
      | false =>
        simp only [hb, Bool.false_eq_true, if_false]
        exact ih acc h
      | true =>
        simp only [hb, if_true]
        exact ih _ (by rw [h]; rfl)
  exact key agents ([], []) rfl

lemma range_map_shift (rn n : ℕ) :
    (List.range (n + 1)).map (fun k => rn + k)
      = rn :: (List.range n).map (fun k => rn + 1 + k) := by
  rw [List.range_succ_eq_map, List.map_cons, List.map_map]
  congr 1
  apply List.map_congr_left
  intro a _
  simp [Function.comp]
  omega

lemma converge_go_max (agents : List Agent) (cfg : Config)
    (emb : String → Vec) :
    ∀ (rem round_num : ℕ) (artifacts : List String)
      (hist : List RoundData) (cur : ℕ),
      (∀ k, k < rem → check_convergence emb cfg.threshold
          (arts_iter agents cfg.rubric artifacts k)
          (arts_iter agents cfg.rubric artifacts (k + 1)) = false) →
      (converge_go agents cfg emb round_num rem artifacts hist cur).status
          = "max_rounds_reached" ∧
      (converge_go agents cfg emb round_num rem artifacts hist cur).artifacts
          = arts_iter agents cfg.rubric artifacts rem ∧
      (converge_go agents cfg emb round_num rem artifacts hist cur).current_round
          = (if rem = 0 then cur else round_num + rem - 1) ∧
      ((converge_go agents cfg emb round_num rem artifacts hist cur).history).map
          RoundData.round
        = hist.map RoundData.round
            ++ (List.range rem).map (fun k => round_num + k) := by
  intro rem
  induction rem with
  | zero =>
    intro round_num artifacts hist cur _
    refine ⟨rfl, rfl, rfl, by simp [converge_go]⟩
  | succ rem ih =>
    intro round_num artifacts hist cur hnc
    have h0 := hnc 0 (Nat.succ_pos rem)
    simp only [arts_iter] at h0
    have hrp1 := review_phase_fst agents cfg.rubric round_num artifacts hist
    have hrp2 := review_phase_snd agents cfg.rubric round_num artifacts hist
    have hfp1 := refine_phase_fst agents round_num artifacts
      (review_phase agents cfg.rubric round_num artifacts hist).1
      (review_phase agents cfg.rubric round_num artifacts hist).2
    have hfp2 := refine_phase_snd agents round_num artifacts
      (reviews_pure agents cfg.rubric artifacts)
      (review_phase agents cfg.rubric round_num artifacts hist).2
    rw [hrp1] at hfp1
    have hstep : refine_pure agents artifacts
        (reviews_pure agents cfg.rubric artifacts)
        = refine_step agents cfg.rubric artifacts := rfl
    rw [hstep] at hfp1
    simp only [converge_go, hfp1, hrp1, h0, Bool.false_eq_true, if_false]
    obtain ⟨IH1, IH2, IH3, IH4⟩ := ih (round_num + 1)
      (refine_step agents cfg.rubric artifacts)
      (log_round
        (refine_phase agents round_num artifacts
          (reviews_pure agents cfg.rubric artifacts)
          (review_phase agents cfg.rubric round_num artifacts hist).2).2
        ⟨round_num, refine_step agents cfg.rubric artifacts,
          some (reviews_pure agents cfg.rubric artifacts), none, []⟩)
      round_num
      (fun k hk => by
        rw [arts_iter_shift, arts_iter_shift]
        exact hnc (k + 1) (by omega))
    refine ⟨IH1, ?_, ?_, ?_⟩
    · rw [IH2, arts_iter_shift]
    · rw [IH3]
      rw [if_neg (Nat.succ_ne_zero rem)]
      by_cases h00 : rem = 0
      · subst h00; simp
      · rw [if_neg h00]; omega
    · rw [IH4]
      simp only [log_round, List.map_append, List.map_cons, List.map_nil]
      rw [hfp2, hrp2, range_map_shift]
      simp [List.append_assoc]

/-- **C7.** A converge-mode run with `R ≥ 1` configured rounds whose
convergence check is false at every round executes exactly `R`
review/refine rounds (the history holds records for rounds `0..R`), then
returns status `"max_rounds_reached"` with the last refined artifact
sequence (`arts_iter … R`, the `R`-fold review+refine image of the round-0
artifacts), and the final round counter equals `R`. -/
theorem max_rounds_run (agents : List Agent) (cfg : Config)
    (emb : String → Vec) (hR : 1 ≤ cfg.rounds)
    (hnc : ∀ k, k < cfg.rounds →
      check_convergence emb cfg.threshold
        (arts_iter agents cfg.rubric (initial_artifacts agents cfg.task) k)
        (arts_iter agents cfg.rubric (initial_artifacts agents cfg.task)
          (k + 1)) = false) :
    (run_converge_mode agents cfg emb).status = "max_rounds_reached" ∧
    (run_converge_mode agents cfg emb).artifacts
      = arts_iter agents cfg.rubric (initial_artifacts agents cfg.task)
          cfg.rounds ∧
    (run_converge_mode agents cfg emb).current_round = cfg.rounds ∧
    (run_converge_mode agents cfg emb).history.map RoundData.round
      = List.range (cfg.rounds + 1) := by
  obtain ⟨G1, G2, G3, G4⟩ := converge_go_max agents cfg emb cfg.rounds 1
    (initial_artifacts agents cfg.task)
    (log_round (initial_generation agents cfg.task []).2
      ⟨0, (initial_generation agents cfg.task []).1, none, none, []⟩) 0 hnc
  have hrm : run_converge_mode agents cfg emb = converge_go agents cfg emb 1
      cfg.rounds (initial_artifacts agents cfg.task)
      (log_round (initial_generation agents cfg.task []).2
        ⟨0, (initial_generation agents cfg.task []).1, none, none, []⟩) 0 := by
    simp only [run_converge_mode, initial_artifacts]
  rw [hrm]
  refine ⟨G1, G2, ?_, ?_⟩
  · rw [G3, if_neg (by omega)]
    omega
  · rw [G4, initial_generation_snd_nil]
    simp only [log_round, List.nil_append, List.map_cons, List.map_nil]
    rw [List.range_succ_eq_map, List.singleton_append]
    congr 1
    apply List.map_congr_left
    intro a _
    omega

/-- Witness for `max_rounds_run`: one alternating creator, three rounds,
threshold `1/2`, orthogonal embeddings — no round converges. -/
theorem max_rounds_run_witness :
    ((1 ≤ demo_cfg3.rounds) ∧
      ∀ k, k < demo_cfg3.rounds →
        check_convergence demo_emb demo_cfg3.threshold
          (arts_iter [alt_creator] demo_cfg3.rubric
            (initial_artifacts [alt_creator] demo_cfg3.task) k)
          (arts_iter [alt_creator] demo_cfg3.rubric
            (initial_artifacts [alt_creator] demo_cfg3.task) (k + 1))
          = false) ∧
    ((run_converge_mode [alt_creator] demo_cfg3 demo_emb).status
        = "max_rounds_reached" ∧
     (run_converge_mode [alt_creator] demo_cfg3 demo_emb).artifacts
        = arts_iter [alt_creator] demo_cfg3.rubric
            (initial_artifacts [alt_creator] demo_cfg3.task)
            demo_cfg3.rounds ∧
     (run_converge_mode [alt_creator] demo_cfg3 demo_emb).current_round
        = demo_cfg3.rounds ∧
     (run_converge_mode [alt_creator] demo_cfg3 demo_emb).history.map
        RoundData.round = List.range (demo_cfg3.rounds + 1)) := by
  have hR : 1 ≤ demo_cfg3.rounds := by norm_num [demo_cfg3]
  have hba : (("b" : String) = "a") = False := by simp
  have ha0 : initial_artifacts [alt_creator] demo_cfg3.task = ["a"] := rfl
  have h1 : arts_iter [alt_creator] demo_cfg3.rubric ["a"] 1 = ["b"] := by
    simp [arts_iter, refine_step, refine_pure, reviews_pure, alt_creator,
      demo_cfg3, artifact_reviews, rangeStep, List.enum, List.enumFrom, hba]
  have h2 : arts_iter [alt_creator] demo_cfg3.rubric ["a"] 2 = ["a"] := by
    have hh : arts_iter [alt_creator] demo_cfg3.rubric ["a"] 2
        = refine_step [alt_creator] demo_cfg3.rubric
            (arts_iter [alt_creator] demo_cfg3.rubric ["a"] 1) := rfl
    rw [hh, h1]
    simp [refine_step, refine_pure, reviews_pure, alt_creator, demo_cfg3,
      artifact_reviews, rangeStep, List.enum, List.enumFrom, hba]
  have h3 : arts_iter [alt_creator] demo_cfg3.rubric ["a"] 3 = ["b"] := by
    have hh : arts_iter [alt_creator] demo_cfg3.rubric ["a"] 3
        = refine_step [alt_creator] demo_cfg3.rubric
            (arts_iter [alt_creator] demo_cfg3.rubric ["a"] 2) := rfl
    rw [hh, h2]
    simp [refine_step, refine_pure, reviews_pure, alt_creator, demo_cfg3,
      artifact_reviews, rangeStep, List.enum, List.enumFrom, hba]
  have hchkab : check_convergence demo_emb demo_cfg3.threshold ["a"] ["b"]
      = false := by
    norm_num [check_convergence, simLtB, normSq, dot, demo_emb, demo_cfg3, hba]
  have hchkba : check_convergence demo_emb demo_cfg3.threshold ["b"] ["a"]
      = false := by
    norm_num [check_convergence, simLtB, normSq, dot, demo_emb, demo_cfg3, hba]
  have hnc : ∀ k, k < demo_cfg3.rounds →
      check_convergence demo_emb demo_cfg3.threshold
        (arts_iter [alt_creator] demo_cfg3.rubric
          (initial_artifacts [alt_creator] demo_cfg3.task) k)
        (arts_iter [alt_creator] demo_cfg3.rubric
          (initial_artifacts [alt_creator] demo_cfg3.task) (k + 1))
        = false := by
    rw [ha0]
    have hrounds : demo_cfg3.rounds = 3 := rfl
    rw [hrounds]
    intro k hk
    interval_cases k
    · rw [show arts_iter [alt_creator] demo_cfg3.rubric ["a"] 0 = ["a"]
        from rfl, h1]
      exact hchkab
    · rw [h1, h2]
      exact hchkba
    · rw [h2, h3]
      exact hchkab
  exact ⟨⟨hR, hnc⟩, max_rounds_run [alt_creator] demo_cfg3 demo_emb hR hnc⟩

end VorsTing
